import Mathlib

/-!
Shallow embedding of the dolt diff subsystem: the row validity and equality
functions of go/libraries/doltcore/row/row.go and the diff command logic of
go/cmd/dolt/commands/diff.go, with theorems settling the frozen claims about
them.
-/

namespace Dolt

/-- Values stored in rows (noms types.Value), modelled as an abstract code
with decidable equality. -/
abbrev Value := Nat

/-- Modelled from the spec: the Constraint interface of the schema package
(not under src). The not-null constraint is the representative concrete
constraint. -/
inductive Constraint where
  | notNull
deriving DecidableEq, Repr

/-- Modelled from the spec: SatisfiesConstraint of the schema package; it
receives the raw value, nil (none) when absent, and the not-null constraint
accepts exactly the present values. -/
def SatisfiesConstraint : Constraint → Option Value → Bool
  | .notNull, v => v.isSome

/-- schema.Column of the schema package (not under src), fields per the data
model of the spec: tag, name, a type descriptor code, primary-key membership
and the constraint list. -/
structure Column where
  tag : Nat
  name : String
  typeInfo : Nat
  isPartOfPK : Bool
  constraints : List Constraint
deriving DecidableEq, Repr

/-- Modelled from the spec: a schema is an ordered collection of columns with
unique tags, iterable in order; GetAllCols().Iter visits the columns in this
order and GetAllCols().Tags is the tag list in the same order. -/
abbrev Schema := List Column

/-- A row, a sparse mapping from column tag to value (row.Row and its
TaggedValues form), modelled as an association list. -/
abbrev RowV := List (Nat × Value)

/-- Row.GetColVal: the value of a row at a tag, none when the tag is absent
(the Go caller then sees the nil Value and a false ok flag). -/
def GetColVal (r : RowV) (tag : Nat) : Option Value :=
  (r.find? (fun p => p.1 == tag)).map (·.2)

/-- The inner constraint loop shared by row.IsValid and row.GetInvalidCol:
all constraints of the column hold of the row value at the column tag, the
value being nil (none) when absent. -/
def colConstraintsOk (r : RowV) (col : Column) : Bool :=
  col.constraints.all (fun cnst => SatisfiesConstraint cnst (GetColVal r col.tag))

/-- row.IsValid: iterates every column of the schema; a column with a
nonempty constraint list whose row value (nil when absent) fails one of its
constraints makes the row invalid, and the iteration stops there. -/
def IsValid (r : RowV) (sch : Schema) : Bool :=
  sch.all (fun col =>
    if col.constraints.length > 0 then colConstraintsOk r col else true)

/-- row.GetInvalidCol: the first column with a nonempty constraint list whose
row value (nil when absent) fails one of its constraints, none when every
column passes. -/
def GetInvalidCol (r : RowV) (sch : Schema) : Option Column :=
  sch.find? (fun col => col.constraints.length > 0 && !(colConstraintsOk r col))

/-- Modelled from the spec: valutil.NilSafeEqCheck (not under src) —
null-safe equality: both absent equal, exactly one absent unequal, both
present equal iff the underlying value equality holds. -/
def NilSafeEqCheck (v1 v2 : Option Value) : Bool :=
  match v1, v2 with
  | none, none => true
  | none, some _ => false
  | some _, none => false
  | some a, some b => a == b

/-- row.AreEqual: two nil rows are equal, a nil row never equals a non-nil
row, and two non-nil rows are compared by null-safe equality of their values
at every tag of the schema column set. A nil Go interface row is modelled as
none. -/
def AreEqual (row1 row2 : Option RowV) (sch : Schema) : Bool :=
  match row1, row2 with
  | none, none => true
  | none, some _ => false
  | some _, none => false
  | some r1, some r2 =>
    (sch.map (·.tag)).all (fun tag =>
      NilSafeEqCheck (GetColVal r1 tag) (GetColVal r2 tag))

/-- Row validity exactly as the spec words it: every tag that is present in
the row satisfies the constraints of its column; absent values are not
checked at all. Stated as a second definition to compare with IsValid, which
was translated from the source. -/
def specRowValid (r : RowV) (sch : Schema) : Bool :=
  sch.all (fun col =>
    match GetColVal r col.tag with
    | none => true
    | some v => col.constraints.all (fun cnst => SatisfiesConstraint cnst (some v)))

/-- The two output modes the argument parser produces (TabularDiffOutput = 1
and SQLDiffOutput = 2 of diff.go; parseDiffArgs assigns no other value). -/
inductive DiffOutput where
  | tabular
  | sql
deriving DecidableEq, Repr

/-- The diff part bit of diff.go selecting the schema diff. -/
def SchemaOnlyDiff : Nat := 1

/-- The diff part bit of diff.go selecting the data diff. -/
def DataOnlyDiff : Nat := 2

/-- The diff part bit of diff.go selecting the summary. -/
def SummaryPart : Nat := 4

/-- diffArgs of diff.go: the parts bitset, the output mode, the selected
table names, the row limit and the where string. -/
structure DiffArgs where
  diffParts : Nat
  diffOutput : DiffOutput
  tableSet : List String
  limit : Int
  whereStr : String

/-- Modelled from the spec: schema.NewColCollection (not under src) — forms a
column collection, failing (none, the error diff.go ignores) when tags
repeat, per the schema invariant that tags are unique. -/
def NewColCollection (cols : List Column) : Option (List Column) :=
  if (cols.map (·.tag)).Nodup then some cols else none

/-- The Iter fold of dumbDownSchema: each column renamed to the decimal
rendering of its tag, its constraints stripped, appended in order. -/
def dumbDownFold (cols : List Column) : List Column :=
  cols.foldl
    (fun acc col => acc ++ [{ col with name := Nat.repr col.tag, constraints := [] }]) []

/-- commands.dumbDownSchema of diff.go: renames every column to the decimal
string of its tag, strips all constraints and rebuilds the schema from the
collection (the ignored collection error leaves the nil collection, giving
the empty schema). -/
def dumbDownSchema (sch : Schema) : Schema :=
  match NewColCollection (dumbDownFold sch) with
  | some cols => cols
  | none => []

/-- One step of the union fold: a column whose tag is new is appended, an
identical column already present is kept once, and a differing column with
the same tag is a conflict (none). -/
def unionAddCol (acc : Option Schema) (col : Column) : Option Schema :=
  match acc with
  | none => none
  | some cols =>
    match cols.find? (fun c2 => c2.tag == col.tag) with
    | none => some (cols ++ [col])
    | some c2 => if c2 = col then some cols else none

/-- Modelled from the spec: untyped.UntypedSchemaUnion (not under src) — the
tag-unioned column set: the columns of the first schema in order, then the
columns of the second schema with new tags appended; fails (none) when one
tag carries two different columns. -/
def UntypedSchemaUnion (sch1 sch2 : Schema) : Option Schema :=
  sch2.foldl unionAddCol (some sch1)

/-- commands.createSplitter of diff.go, restricted to the union schema it
computes: tabular output unions the dumbed-down schemas (new side first, old
side second), any other output uses the to-side schema unchanged; the row
converters and the DiffSplitter built from the rowconv and diff packages
(not under src) are outside the embedded fragment. -/
def createSplitter (fromSch toSch : Schema) (dArgs : DiffArgs) : Option Schema :=
  if dArgs.diffOutput = DiffOutput.tabular then
    UntypedSchemaUnion (dumbDownSchema toSch) (dumbDownSchema fromSch)
  else some toSch

/-- ColCollection.GetByTag: the column of a schema carrying a tag. -/
def findColByTag (sch : Schema) (tag : Nat) : Option Column :=
  sch.find? (fun c => c.tag == tag)

/-- commands.mapTagToColName of diff.go: for each tag of the union schema, in
union order, the name of the column with that tag in sch, the empty string
when sch lacks the tag. The Go map compares equal by reflect.DeepEqual to
another iff they agree pointwise; the two maps diffRows compares share the
union key set, so equality of these ordered lists coincides with it. -/
def mapTagToColName (sch unionSch : Schema) : List (Nat × String) :=
  unionSch.map (fun uc =>
    (uc.tag, match findColByTag sch uc.tag with
      | some c => c.name
      | none => ""))

/-- The diff-type row property values diff.DiffModifiedOld and
diff.DiffModifiedNew used for the two-header case. -/
inductive DiffRowProp where
  | diffModifiedOld
  | diffModifiedNew
deriving DecidableEq, Repr

/-- Modelled from the spec: fwtStageName, the name of the
fixed-width-formatting stage, declared elsewhere in the commands package
(not under src). -/
def fwtStageName : String := "fwt"

/-- One InjectRow or InjectRowWithProps call of diffRows: the target stage,
the header row (NewRowFromTaggedStrings builds it from a tag-to-name map,
modelled by that map) and the attached diff-type property, none for the
plain InjectRow. -/
structure Injection where
  stage : String
  rowNames : List (Nat × String)
  props : Option DiffRowProp
deriving DecidableEq, Repr

/-- The header-row injections diffRows performs before starting the
pipeline: none when the output is SQL; otherwise one row from the new-side
names when the two tag-to-name maps are equal, else first the old-side names
with DiffModifiedOld and then the new-side names with DiffModifiedNew, both
at the fixed-width-formatting stage. -/
def diffRowsHeaderInjections (dOut : DiffOutput)
    (oldColNames newColNames : List (Nat × String)) : List Injection :=
  if dOut ≠ DiffOutput.sql then
    if oldColNames = newColNames then
      [⟨fwtStageName, newColNames, none⟩]
    else
      [⟨fwtStageName, oldColNames, some DiffRowProp.diffModifiedOld⟩,
       ⟨fwtStageName, newColNames, some DiffRowProp.diffModifiedNew⟩]
  else []

/-- The header injections of diffRows as a function of the two schemas and
the union schema: oldColNames maps the from-side names, newColNames the
to-side names, both over the union schema. -/
def diffRowsHeaders (fromSch toSch unionSch : Schema) (dOut : DiffOutput) :
    List Injection :=
  diffRowsHeaderInjections dOut
    (mapTagToColName fromSch unionSch) (mapTagToColName toSch unionSch)

/-- diff.DiffSummaryProgress of the diff package (not under src), fields per
the spec data model and their use in diff.go: the six uint64 streaming
counters. -/
structure DiffSummaryProgress where
  Adds : Nat
  Removes : Nat
  Changes : Nat
  CellChanges : Nat
  NewSize : Nat
  OldSize : Nat
deriving DecidableEq, Repr

/-- 2^64, the modulus of Go uint64 arithmetic. -/
def U64 : Nat := 2 ^ 64

/-- Go uint64 addition: wraps modulo 2^64. -/
def add64 (a b : Nat) : Nat := (a + b) % U64

/-- Go uint64 subtraction: wraps modulo 2^64. -/
def sub64 (a b : Nat) : Nat := (a + (U64 - b % U64)) % U64

/-- One iteration of the accumulation loop of diffSummary in diff.go:
field-wise uint64 addition of one partial report into the accumulator. -/
def accumulateStep (acc p : DiffSummaryProgress) : DiffSummaryProgress where
  Adds := add64 acc.Adds p.Adds
  Removes := add64 acc.Removes p.Removes
  Changes := add64 acc.Changes p.Changes
  CellChanges := add64 acc.CellChanges p.CellChanges
  NewSize := add64 acc.NewSize p.NewSize
  OldSize := add64 acc.OldSize p.OldSize

/-- The drain loop of diffSummary over the partial reports delivered on the
channel, in order, starting from the zero accumulator (the error-free run:
on a producer error the loop breaks early and diffSummary returns the error
instead of totals). -/
def diffSummaryAccumulate (reports : List DiffSummaryProgress) : DiffSummaryProgress :=
  reports.foldl accumulateStep ⟨0, 0, 0, 0, 0, 0⟩

/-- The unmodified-row count of formatSummary: the uint64 subtraction
OldSize - Changes - Removes, wrapping modulo 2^64, with no clamping. -/
def rowsUnmodified (acc : DiffSummaryProgress) : Nat :=
  sub64 (sub64 acc.OldSize acc.Changes) acc.Removes

/-- An IEEE-754 double as the summary formatter uses it: a finite value
(modelled as an exact rational: uint64-to-double rounding never changes
whether a value is zero, positive, infinite or NaN, which is all the
percentage claims turn on), positive infinity, or NaN. Negative values never
arise here. -/
inductive FloatVal where
  | finite (q : ℚ)
  | posInf
  | nan
deriving DecidableEq

/-- IEEE division of two nonnegative finite doubles, the only division the
summary formatter performs: x/0 is NaN for x = 0 and +Inf for x > 0. -/
def fdiv (a b : ℚ) : FloatVal :=
  if b = 0 then (if a = 0 then FloatVal.nan else FloatVal.posInf)
  else FloatVal.finite (a / b)

/-- safePercent of formatSummary in diff.go: returns 0 whenever the
numerator is 0, otherwise float64(100*num) / float64(dom), the uint64
product wrapping modulo 2^64 (the Go comment itself notes it returns +Inf
for x/0 where x > 0). -/
def safePercent (num dom : Nat) : FloatVal :=
  if num = 0 then FloatVal.finite 0
  else fdiv (((100 * num) % U64 : Nat) : ℚ) (dom : ℚ)

/-- The five percentage statistics formatSummary prints. -/
structure SummaryPercents where
  unmodified : FloatVal
  adds : FloatVal
  removes : FloatVal
  changes : FloatVal
  cells : FloatVal
deriving DecidableEq

/-- The percentage computations of formatSummary in diff.go: four statistics
guarded by safePercent over OldSize, and the cell statistic computed
unguarded as float64(100*CellChanges) / (float64(OldSize)*float64(colLen)). -/
def formatSummaryPercents (acc : DiffSummaryProgress) (colLen : Nat) : SummaryPercents where
  unmodified := safePercent (rowsUnmodified acc) acc.OldSize
  adds := safePercent acc.Adds acc.OldSize
  removes := safePercent acc.Removes acc.OldSize
  changes := safePercent acc.Changes acc.OldSize
  cells := fdiv (((100 * acc.CellChanges) % U64 : Nat) : ℚ)
    ((acc.OldSize : ℚ) * (colLen : ℚ))

/-- diff.TableDelta of the diff package (not under src), per the spec data
model: the two versions of one table; presence of each version is what the
control flow branches on, so the table handles are modelled by presence
flags, with the schemas carried alongside. -/
structure TableDelta where
  fromName : String
  toName : String
  fromTablePresent : Bool
  toTablePresent : Bool
  fromSch : Schema
  toSch : Schema

/-- Modelled from the spec: TableDelta.IsAdd — the from-side table is
absent. -/
def TableDelta.IsAdd (td : TableDelta) : Bool := !td.fromTablePresent

/-- Modelled from the spec: TableDelta.IsDrop — the to-side table is
absent. -/
def TableDelta.IsDrop (td : TableDelta) : Bool := !td.toTablePresent

/-- Modelled from the spec: schema.SchemasAreEqual (not under src) —
structural equality of the two schemas. -/
def SchemasAreEqual (a b : Schema) : Bool := decide (a = b)

/-- What one call of commands.diffSchemas does. -/
inductive SchemaDiffOutcome where
  | noChanges
  | tabularDiff
  | sqlDiff
  | panicked
deriving DecidableEq, Repr

/-- commands.diffSchemas of diff.go: equal schemas print nothing; tabular
output panics on an added or dropped table and otherwise renders the
tabular schema diff; any other output renders the SQL schema statements. -/
def diffSchemas (td : TableDelta) (dArgs : DiffArgs) : SchemaDiffOutcome :=
  if SchemasAreEqual td.fromSch td.toSch then SchemaDiffOutcome.noChanges
  else if dArgs.diffOutput = DiffOutput.tabular then
    if td.IsDrop || td.IsAdd then SchemaDiffOutcome.panicked
    else SchemaDiffOutcome.tabularDiff
  else SchemaDiffOutcome.sqlDiff

/-- How the loop body of commands.diffRoots disposes of one table delta. -/
inductive DeltaStep where
  | skippedUnselected
  | errorBothNil
  | skippedAddDropTabular
  | skippedDocTable
  | processed (ranSummary : Bool) (schemaDiff : Option SchemaDiffOutcome) (ranData : Bool)
deriving DecidableEq, Repr

/-- Modelled from the spec: doltdb.DocTableName (not under src), the
reserved document table name diffRoots skips. -/
def DocTableName : String := "dolt_docs"

/-- The body of the per-delta loop of commands.diffRoots: skip a delta
neither of whose names is selected; error when both tables are nil; in
tabular output print the table summary and skip added and dropped tables;
skip the document table; then run the summary, schema and data parts their
bits select, the data part being skipped for a dropped table in SQL
output. -/
def processTableDelta (dArgs : DiffArgs) (td : TableDelta) : DeltaStep :=
  if !(dArgs.tableSet.contains td.fromName || dArgs.tableSet.contains td.toName) then
    DeltaStep.skippedUnselected
  else if td.fromTablePresent = false ∧ td.toTablePresent = false then
    DeltaStep.errorBothNil
  else if dArgs.diffOutput = DiffOutput.tabular ∧ (td.IsDrop || td.IsAdd) = true then
    DeltaStep.skippedAddDropTabular
  else if td.toName = DocTableName then
    DeltaStep.skippedDocTable
  else
    DeltaStep.processed
      (dArgs.diffParts.land SummaryPart != 0)
      (if dArgs.diffParts.land SchemaOnlyDiff != 0 then some (diffSchemas td dArgs) else none)
      (dArgs.diffParts.land DataOnlyDiff != 0 &&
        !(td.IsDrop && decide (dArgs.diffOutput = DiffOutput.sql)))

/-- C9: the boolean validity check and the first-invalid-column finder agree:
IsValid returns true exactly when GetInvalidCol returns none. -/
theorem isValid_iff_getInvalidCol (r : RowV) (sch : Schema) :
    IsValid r sch = true ↔ GetInvalidCol r sch = none := by
  unfold IsValid GetInvalidCol
  rw [List.all_eq_true, List.find?_eq_none]
  constructor
  · intro h col hmem
    have hcol := h col hmem
    by_cases hl : col.constraints.length > 0
    · simp only [hl, if_true] at hcol
      simp [hl, hcol]
    · simp [hl]
  · intro h col hmem
    have hcol := h col hmem
    by_cases hl : col.constraints.length > 0 <;> simp [hl] at hcol ⊢
    exact hcol

/-- C5 counterexample: against a schema with a single not-null constrained
column, the empty row is valid per the claim (no tag is present, so every
present tag vacuously satisfies its constraints), yet IsValid returns false,
because the absent value is checked against the constraint as nil. -/
theorem isValid_absent_counterexample :
    specRowValid [] [Column.mk 0 "c" 0 false [Constraint.notNull]] = true ∧
    IsValid [] [Column.mk 0 "c" 0 false [Constraint.notNull]] = false := by
  exact ⟨rfl, rfl⟩

/-- C5 (amended): IsValid returns true iff every constraint of every column
is satisfied by the row value at the column tag, where an absent value is
passed to the constraint as nil; thus a row lacking a value for a
constrained column is valid only if the constraints accept nil. -/
theorem isValid_iff (r : RowV) (sch : Schema) :
    IsValid r sch = true ↔
      ∀ col ∈ sch, ∀ cnst ∈ col.constraints,
        SatisfiesConstraint cnst (GetColVal r col.tag) = true := by
  unfold IsValid
  rw [List.all_eq_true]
  constructor
  · intro h col hmem cnst hcnst
    have hcol := h col hmem
    have hl : col.constraints.length > 0 :=
      List.length_pos.mpr (List.ne_nil_of_mem hcnst)
    rw [if_pos hl] at hcol
    unfold colConstraintsOk at hcol
    rw [List.all_eq_true] at hcol
    exact hcol cnst hcnst
  · intro h col hmem
    by_cases hl : col.constraints.length > 0
    · rw [if_pos hl]
      unfold colConstraintsOk
      rw [List.all_eq_true]
      exact fun cnst hcnst => h col hmem cnst hcnst
    · rw [if_neg hl]

/-- C4: AreEqual is null-safe and schema-scoped: it returns true iff either
both rows are nil, or both are non-nil and at every tag of the schema column
set the two values are equal under null-safe equality (both absent equal,
exactly one absent unequal, both present equal iff the values are equal). -/
theorem areEqual_iff (row1 row2 : Option RowV) (sch : Schema) :
    AreEqual row1 row2 sch = true ↔
      ((row1 = none ∧ row2 = none) ∨
        (∃ r1 r2, row1 = some r1 ∧ row2 = some r2 ∧
          ∀ tag ∈ sch.map (·.tag),
            (GetColVal r1 tag = none ∧ GetColVal r2 tag = none) ∨
            (∃ v1 v2, GetColVal r1 tag = some v1 ∧ GetColVal r2 tag = some v2 ∧
              v1 = v2))) := by
  cases row1 with
  | none =>
    cases row2 with
    | none => simp [AreEqual]
    | some r2 => simp [AreEqual]
  | some r1 =>
    cases row2 with
    | none => simp [AreEqual]
    | some r2 =>
      simp only [AreEqual, List.all_eq_true]
      constructor
      · intro h
        refine Or.inr ⟨r1, r2, rfl, rfl, ?_⟩
        intro tag hmem
        have htag := h tag hmem
        cases h1 : GetColVal r1 tag with
        | none =>
          cases h2 : GetColVal r2 tag with
          | none => exact Or.inl ⟨rfl, rfl⟩
          | some v2 => rw [h1, h2] at htag; simp [NilSafeEqCheck] at htag
        | some v1 =>
          cases h2 : GetColVal r2 tag with
          | none => rw [h1, h2] at htag; simp [NilSafeEqCheck] at htag
          | some v2 =>
            rw [h1, h2] at htag
            simp only [NilSafeEqCheck, beq_iff_eq] at htag
            exact Or.inr ⟨v1, v2, rfl, rfl, htag⟩
      · intro h
        rcases h with ⟨h1, _⟩ | ⟨r1x, r2x, hr1, hr2, h⟩
        · exact absurd h1 (by simp)
        · simp only [Option.some.injEq] at hr1 hr2
          subst hr1; subst hr2
          intro tag hmem
          rcases h tag hmem with ⟨h1, h2⟩ | ⟨v1, v2, h1, h2, heq⟩
          · simp [NilSafeEqCheck, h1, h2]
          · simp [NilSafeEqCheck, h1, h2, heq]

theorem dumbDownFold_eq_map (cols : List Column) :
    dumbDownFold cols =
      cols.map (fun col => { col with name := Nat.repr col.tag, constraints := [] }) := by
  unfold dumbDownFold
  suffices h : ∀ (l acc : List Column),
      l.foldl
          (fun acc col => acc ++ [{ col with name := Nat.repr col.tag, constraints := [] }]) acc
        = acc ++ l.map (fun col => { col with name := Nat.repr col.tag, constraints := [] }) by
    simpa using h cols []
  intro l
  induction l with
  | nil => simp
  | cons c cs ih => intro acc; simp [ih]

/-- C6: on a schema whose tags are unique (the schema invariant),
dumbDownSchema maps each column, keeping the tag order, to the same column
with its name replaced by the decimal string of its tag and its constraints
emptied; tag, type and primary-key membership are untouched. -/
theorem dumbDownSchema_spec (sch : Schema) (h : (sch.map (·.tag)).Nodup) :
    dumbDownSchema sch =
      sch.map (fun col => { col with name := Nat.repr col.tag, constraints := [] }) := by
  unfold dumbDownSchema NewColCollection
  rw [dumbDownFold_eq_map]
  have htags :
      ((sch.map fun col =>
        ({ col with name := Nat.repr col.tag, constraints := [] } : Column)).map (·.tag))
        = sch.map (·.tag) := by
    rw [List.map_map]; rfl
  rw [htags, if_pos h]

/-- Witness for dumbDownSchema_spec at a concrete two-column schema. -/
theorem dumbDownSchema_spec_witness :
    (([Column.mk 7 "a" 1 true [Constraint.notNull],
       Column.mk 3 "b" 2 false []].map (·.tag)).Nodup) ∧
    dumbDownSchema
        [Column.mk 7 "a" 1 true [Constraint.notNull], Column.mk 3 "b" 2 false []] =
      [Column.mk 7 "a" 1 true [Constraint.notNull], Column.mk 3 "b" 2 false []].map
        (fun col => { col with name := Nat.repr col.tag, constraints := [] }) :=
  ⟨by decide, dumbDownSchema_spec _ (by decide)⟩

theorem unionFold_none (l : List Column) : l.foldl unionAddCol none = none := by
  induction l with
  | nil => rfl
  | cons c cs ih => simpa [unionAddCol] using ih

theorem unionAddCol_some (acc : List Column) (c : Column) (acc2 : List Column)
    (h : unionAddCol (some acc) c = some acc2) :
    acc2 = acc ++ [c] ∨ acc2 = acc := by
  simp only [unionAddCol] at h
  cases hf : acc.find? (fun c2 => c2.tag == c.tag) with
  | none =>
    simp only [hf] at h
    exact Or.inl (Option.some.inj h).symm
  | some c2 =>
    simp only [hf] at h
    by_cases he : c2 = c
    · rw [if_pos he] at h; exact Or.inr (Option.some.inj h).symm
    · rw [if_neg he] at h; exact absurd h (by simp)

theorem mem_of_unionFold (l : List Column) :
    ∀ (acc u : List Column), l.foldl unionAddCol (some acc) = some u →
      ∀ col ∈ u, col ∈ acc ∨ col ∈ l := by
  induction l with
  | nil =>
    intro acc u h col hm
    simp only [List.foldl_nil, Option.some.injEq] at h
    subst h
    exact Or.inl hm
  | cons c cs ih =>
    intro acc u h col hm
    rw [List.foldl_cons] at h
    cases hstep : unionAddCol (some acc) c with
    | none => rw [hstep, unionFold_none] at h; exact absurd h (by simp)
    | some acc2 =>
      rw [hstep] at h
      rcases ih acc2 u h col hm with h2 | h2
      · rcases unionAddCol_some acc c acc2 hstep with rfl | rfl
        · rcases List.mem_append.mp h2 with ha | hc
          · exact Or.inl ha
          · rw [List.mem_singleton] at hc
            subst hc
            exact Or.inr (List.mem_cons_self _ _)
        · exact Or.inl h2
      · exact Or.inr (List.mem_cons_of_mem _ h2)

theorem dumbDownSchema_mem (sch : Schema) :
    ∀ col ∈ dumbDownSchema sch, col.name = Nat.repr col.tag ∧ col.constraints = [] := by
  intro col hm
  unfold dumbDownSchema at hm
  cases hN : NewColCollection (dumbDownFold sch) with
  | none => rw [hN] at hm; exact absurd hm (List.not_mem_nil col)
  | some cols =>
    rw [hN] at hm
    unfold NewColCollection at hN
    by_cases hd : ((dumbDownFold sch).map (·.tag)).Nodup
    · rw [if_pos hd] at hN
      obtain rfl : cols = dumbDownFold sch := (Option.some.inj hN).symm
      rw [dumbDownFold_eq_map] at hm
      obtain ⟨c, _, rfl⟩ := List.mem_map.mp hm
      exact ⟨rfl, rfl⟩
    · rw [if_neg hd] at hN
      exact absurd hN (by simp)

/-- C7: the dumbed-down union schema is built exactly for tabular output:
with TabularDiffOutput createSplitter computes the union of the dumbed-down
to-side and from-side schemas, in which every column is tag-named and
constraint-free, while with SQLDiffOutput the union schema is the to-side
schema itself, names and types intact. -/
theorem createSplitter_union_modes (fromSch toSch : Schema) (dArgs : DiffArgs) :
    (dArgs.diffOutput = DiffOutput.sql →
      createSplitter fromSch toSch dArgs = some toSch) ∧
    (dArgs.diffOutput = DiffOutput.tabular →
      createSplitter fromSch toSch dArgs =
        UntypedSchemaUnion (dumbDownSchema toSch) (dumbDownSchema fromSch) ∧
      ∀ u, createSplitter fromSch toSch dArgs = some u →
        ∀ col ∈ u, col.name = Nat.repr col.tag ∧ col.constraints = []) := by
  constructor
  · intro h
    unfold createSplitter
    rw [h]
    simp
  · intro h
    refine ⟨by unfold createSplitter; rw [h]; simp, ?_⟩
    intro u hu col hm
    unfold createSplitter at hu
    rw [h, if_pos rfl] at hu
    unfold UntypedSchemaUnion at hu
    rcases mem_of_unionFold _ _ _ hu col hm with h2 | h2
    · exact dumbDownSchema_mem toSch col h2
    · exact dumbDownSchema_mem fromSch col h2

/-- C8: header-row injection in diffRows: for SQL output no header row is
injected; for tabular output, before the pipeline starts, exactly one
header row built from the new-side names is injected at the
fixed-width-formatting stage when the old and new tag-to-name maps are
equal, and exactly two otherwise — the first built from the old-side names
carrying DiffModifiedOld, the second from the new-side names carrying
DiffModifiedNew, in that order. -/
theorem diffRows_header_injection (fromSch toSch unionSch : Schema) (dOut : DiffOutput) :
    (dOut = DiffOutput.sql → diffRowsHeaders fromSch toSch unionSch dOut = []) ∧
    (dOut = DiffOutput.tabular →
      (mapTagToColName fromSch unionSch = mapTagToColName toSch unionSch →
        diffRowsHeaders fromSch toSch unionSch dOut =
          [⟨fwtStageName, mapTagToColName toSch unionSch, none⟩]) ∧
      (mapTagToColName fromSch unionSch ≠ mapTagToColName toSch unionSch →
        diffRowsHeaders fromSch toSch unionSch dOut =
          [⟨fwtStageName, mapTagToColName fromSch unionSch, some DiffRowProp.diffModifiedOld⟩,
           ⟨fwtStageName, mapTagToColName toSch unionSch, some DiffRowProp.diffModifiedNew⟩])) := by
  unfold diffRowsHeaders diffRowsHeaderInjections
  refine ⟨fun h => ?_, fun h => ⟨fun he => ?_, fun hne => ?_⟩⟩
  · rw [h]; simp
  · rw [h]; simp [he]
  · rw [h]; simp [hne]

theorem foldl_add64_eq (l : List Nat) :
    ∀ a : Nat, l.foldl add64 (a % U64) = (a + l.sum) % U64 := by
  induction l with
  | nil => intro a; simp
  | cons x xs ih =>
    intro a
    rw [List.foldl_cons, List.sum_cons]
    have h1 : add64 (a % U64) x = (a + x) % U64 := by
      unfold add64; rw [Nat.mod_add_mod]
    rw [h1, ← Nat.add_assoc]
    exact ih (a + x)

theorem foldl_add64_zero (l : List Nat) : l.foldl add64 0 = l.sum % U64 := by
  have h := foldl_add64_eq l 0
  rw [Nat.zero_mod] at h
  simpa using h

theorem foldl_step_field (f : DiffSummaryProgress → Nat)
    (hf : ∀ a p, f (accumulateStep a p) = add64 (f a) (f p)) :
    ∀ (ps : List DiffSummaryProgress) (acc : DiffSummaryProgress),
      f (ps.foldl accumulateStep acc) = (ps.map f).foldl add64 (f acc) := by
  intro ps
  induction ps with
  | nil => intro acc; rfl
  | cons p ps ih =>
    intro acc
    rw [List.foldl_cons, List.map_cons, List.foldl_cons, ih, hf]

/-- C3: the summary accumulator merges by field-wise addition: after the
error-free drain, each of the six fields equals the uint64 sum (the natural
sum modulo 2^64) of that field over all delivered reports, in order, and the
exact natural sum whenever that sum fits in a uint64 — no report skipped
and none counted twice. -/
theorem diffSummary_fieldwise (reports : List DiffSummaryProgress) :
    (diffSummaryAccumulate reports).Adds = (reports.map (·.Adds)).sum % U64 ∧
    (diffSummaryAccumulate reports).Removes = (reports.map (·.Removes)).sum % U64 ∧
    (diffSummaryAccumulate reports).Changes = (reports.map (·.Changes)).sum % U64 ∧
    (diffSummaryAccumulate reports).CellChanges = (reports.map (·.CellChanges)).sum % U64 ∧
    (diffSummaryAccumulate reports).NewSize = (reports.map (·.NewSize)).sum % U64 ∧
    (diffSummaryAccumulate reports).OldSize = (reports.map (·.OldSize)).sum % U64 ∧
    ((reports.map (·.Adds)).sum < U64 →
      (diffSummaryAccumulate reports).Adds = (reports.map (·.Adds)).sum) ∧
    ((reports.map (·.Removes)).sum < U64 →
      (diffSummaryAccumulate reports).Removes = (reports.map (·.Removes)).sum) ∧
    ((reports.map (·.Changes)).sum < U64 →
      (diffSummaryAccumulate reports).Changes = (reports.map (·.Changes)).sum) ∧
    ((reports.map (·.CellChanges)).sum < U64 →
      (diffSummaryAccumulate reports).CellChanges = (reports.map (·.CellChanges)).sum) ∧
    ((reports.map (·.NewSize)).sum < U64 →
      (diffSummaryAccumulate reports).NewSize = (reports.map (·.NewSize)).sum) ∧
    ((reports.map (·.OldSize)).sum < U64 →
      (diffSummaryAccumulate reports).OldSize = (reports.map (·.OldSize)).sum) := by
  have hA : (diffSummaryAccumulate reports).Adds = (reports.map (·.Adds)).sum % U64 := by
    unfold diffSummaryAccumulate
    rw [foldl_step_field (fun x => x.Adds) (fun a p => rfl) reports ⟨0, 0, 0, 0, 0, 0⟩]
    exact foldl_add64_zero _
  have hR : (diffSummaryAccumulate reports).Removes = (reports.map (·.Removes)).sum % U64 := by
    unfold diffSummaryAccumulate
    rw [foldl_step_field (fun x => x.Removes) (fun a p => rfl) reports ⟨0, 0, 0, 0, 0, 0⟩]
    exact foldl_add64_zero _
  have hC : (diffSummaryAccumulate reports).Changes = (reports.map (·.Changes)).sum % U64 := by
    unfold diffSummaryAccumulate
    rw [foldl_step_field (fun x => x.Changes) (fun a p => rfl) reports ⟨0, 0, 0, 0, 0, 0⟩]
    exact foldl_add64_zero _
  have hCC : (diffSummaryAccumulate reports).CellChanges
      = (reports.map (·.CellChanges)).sum % U64 := by
    unfold diffSummaryAccumulate
    rw [foldl_step_field (fun x => x.CellChanges) (fun a p => rfl) reports ⟨0, 0, 0, 0, 0, 0⟩]
    exact foldl_add64_zero _
  have hN : (diffSummaryAccumulate reports).NewSize = (reports.map (·.NewSize)).sum % U64 := by
    unfold diffSummaryAccumulate
    rw [foldl_step_field (fun x => x.NewSize) (fun a p => rfl) reports ⟨0, 0, 0, 0, 0, 0⟩]
    exact foldl_add64_zero _
  have hO : (diffSummaryAccumulate reports).OldSize = (reports.map (·.OldSize)).sum % U64 := by
    unfold diffSummaryAccumulate
    rw [foldl_step_field (fun x => x.OldSize) (fun a p => rfl) reports ⟨0, 0, 0, 0, 0, 0⟩]
    exact foldl_add64_zero _
  exact ⟨hA, hR, hC, hCC, hN, hO,
    fun hlt => by rw [hA]; exact Nat.mod_eq_of_lt hlt,
    fun hlt => by rw [hR]; exact Nat.mod_eq_of_lt hlt,
    fun hlt => by rw [hC]; exact Nat.mod_eq_of_lt hlt,
    fun hlt => by rw [hCC]; exact Nat.mod_eq_of_lt hlt,
    fun hlt => by rw [hN]; exact Nat.mod_eq_of_lt hlt,
    fun hlt => by rw [hO]; exact Nat.mod_eq_of_lt hlt⟩

/-- C2: the unmodified-row count of formatSummary is the unclamped uint64
subtraction OldSize - Changes - Removes, wrapping modulo 2^64 when
Changes + Removes exceeds OldSize; whenever Changes + Removes is at most
OldSize it equals the exact natural difference. -/
theorem rowsUnmodified_wraps (acc : DiffSummaryProgress)
    (h1 : acc.OldSize < U64) (h2 : acc.Changes < U64) (h3 : acc.Removes < U64) :
    rowsUnmodified acc =
      (((acc.OldSize : Int) - acc.Changes - acc.Removes) % (U64 : Int)).toNat ∧
    (acc.Changes + acc.Removes ≤ acc.OldSize →
      rowsUnmodified acc = acc.OldSize - acc.Changes - acc.Removes) := by
  have hU : U64 = 18446744073709551616 := by norm_num [U64]
  unfold rowsUnmodified sub64
  rw [hU] at h1 h2 h3 ⊢
  constructor
  · omega
  · intro hle; omega

/-- Witness for rowsUnmodified_wraps at a concrete accumulator with
OldSize = 10, Changes = 3 and Removes = 2. -/
theorem rowsUnmodified_wraps_witness :
    (10 : Nat) < U64 ∧ (3 : Nat) < U64 ∧ (2 : Nat) < U64 ∧
    (rowsUnmodified (DiffSummaryProgress.mk 0 2 3 0 0 10) =
        (((10 : Int) - 3 - 2) % (U64 : Int)).toNat ∧
      ((3 : Nat) + 2 ≤ 10 →
        rowsUnmodified (DiffSummaryProgress.mk 0 2 3 0 0 10) = 10 - 3 - 2)) :=
  ⟨by norm_num [U64], by norm_num [U64], by norm_num [U64],
    rowsUnmodified_wraps (DiffSummaryProgress.mk 0 2 3 0 0 10)
      (by norm_num [U64]) (by norm_num [U64]) (by norm_num [U64])⟩

theorem safePercent_zero_dom (n : Nat) :
    safePercent n 0 =
      (if n = 0 then FloatVal.finite 0
       else if (100 * n) % U64 = 0 then FloatVal.nan else FloatVal.posInf) := by
  unfold safePercent fdiv
  by_cases hn : n = 0
  · simp [hn]
  · rw [if_neg hn, if_neg hn, Nat.cast_zero, if_pos rfl]
    by_cases hm : (100 * n) % U64 = 0
    · rw [if_pos hm, if_pos (Nat.cast_eq_zero.mpr hm)]
    · rw [if_neg hm, if_neg (fun hq => hm (Nat.cast_eq_zero.mp hq))]

/-- C1 counterexample: for the accumulated progress with one added row and
OldSize = 0, the rows-added percentage has denominator 0 yet formatSummary
computes +Inf for it, not 0. -/
theorem formatSummary_posInf_counterexample :
    (DiffSummaryProgress.mk 1 0 0 0 1 0).OldSize = 0 ∧
    (formatSummaryPercents (DiffSummaryProgress.mk 1 0 0 0 1 0) 1).adds = FloatVal.posInf ∧
    (formatSummaryPercents (DiffSummaryProgress.mk 1 0 0 0 1 0) 1).adds ≠ FloatVal.finite 0 := by
  have h : (formatSummaryPercents (DiffSummaryProgress.mk 1 0 0 0 1 0) 1).adds
      = FloatVal.posInf := by
    show safePercent 1 0 = FloatVal.posInf
    rw [safePercent_zero_dom]
    norm_num [U64]
  exact ⟨rfl, h, by rw [h]; exact fun hc => FloatVal.noConfusion hc⟩

/-- C1 (amended): when the denominator OldSize is 0, each
safePercent-guarded percentage (unmodified, added, deleted, modified rows)
is 0 exactly when its numerator is 0; for a nonzero numerator it is +Inf —
or NaN in the degenerate case where 100 times the numerator wraps to a
multiple of 2^64; the cell percentage is computed with no guard at all and
is NaN when 100*CellChanges wraps to 0 modulo 2^64, in particular when
CellChanges is 0, and +Inf otherwise. -/
theorem formatSummary_zero_denominator (acc : DiffSummaryProgress) (colLen : Nat)
    (h : acc.OldSize = 0) :
    ((formatSummaryPercents acc colLen).unmodified =
      if rowsUnmodified acc = 0 then FloatVal.finite 0
      else if (100 * rowsUnmodified acc) % U64 = 0 then FloatVal.nan
      else FloatVal.posInf) ∧
    ((formatSummaryPercents acc colLen).adds =
      if acc.Adds = 0 then FloatVal.finite 0
      else if (100 * acc.Adds) % U64 = 0 then FloatVal.nan else FloatVal.posInf) ∧
    ((formatSummaryPercents acc colLen).removes =
      if acc.Removes = 0 then FloatVal.finite 0
      else if (100 * acc.Removes) % U64 = 0 then FloatVal.nan else FloatVal.posInf) ∧
    ((formatSummaryPercents acc colLen).changes =
      if acc.Changes = 0 then FloatVal.finite 0
      else if (100 * acc.Changes) % U64 = 0 then FloatVal.nan else FloatVal.posInf) ∧
    ((formatSummaryPercents acc colLen).cells =
      if (100 * acc.CellChanges) % U64 = 0 then FloatVal.nan else FloatVal.posInf) := by
  refine ⟨?_, ?_, ?_, ?_, ?_⟩
  · show safePercent (rowsUnmodified acc) acc.OldSize = _
    rw [h, safePercent_zero_dom]
  · show safePercent acc.Adds acc.OldSize = _
    rw [h, safePercent_zero_dom]
  · show safePercent acc.Removes acc.OldSize = _
    rw [h, safePercent_zero_dom]
  · show safePercent acc.Changes acc.OldSize = _
    rw [h, safePercent_zero_dom]
  · show fdiv (((100 * acc.CellChanges) % U64 : Nat) : ℚ)
      ((acc.OldSize : ℚ) * (colLen : ℚ)) = _
    rw [h, Nat.cast_zero, zero_mul]
    unfold fdiv
    rw [if_pos rfl]
    by_cases hm : (100 * acc.CellChanges) % U64 = 0
    · rw [if_pos hm, if_pos (Nat.cast_eq_zero.mpr hm)]
    · rw [if_neg hm, if_neg (fun hq => hm (Nat.cast_eq_zero.mp hq))]

/-- Witness for formatSummary_zero_denominator at a concrete accumulator
with OldSize = 0 and every numerator nonzero. -/
theorem formatSummary_zero_denominator_witness :
    (DiffSummaryProgress.mk 1 2 3 4 5 0).OldSize = 0 ∧
    (((formatSummaryPercents (DiffSummaryProgress.mk 1 2 3 4 5 0) 7).unmodified =
      if rowsUnmodified (DiffSummaryProgress.mk 1 2 3 4 5 0) = 0 then FloatVal.finite 0
      else if (100 * rowsUnmodified (DiffSummaryProgress.mk 1 2 3 4 5 0)) % U64 = 0
        then FloatVal.nan
      else FloatVal.posInf) ∧
    ((formatSummaryPercents (DiffSummaryProgress.mk 1 2 3 4 5 0) 7).adds =
      if (1 : Nat) = 0 then FloatVal.finite 0
      else if (100 * 1) % U64 = 0 then FloatVal.nan else FloatVal.posInf) ∧
    ((formatSummaryPercents (DiffSummaryProgress.mk 1 2 3 4 5 0) 7).removes =
      if (2 : Nat) = 0 then FloatVal.finite 0
      else if (100 * 2) % U64 = 0 then FloatVal.nan else FloatVal.posInf) ∧
    ((formatSummaryPercents (DiffSummaryProgress.mk 1 2 3 4 5 0) 7).changes =
      if (3 : Nat) = 0 then FloatVal.finite 0
      else if (100 * 3) % U64 = 0 then FloatVal.nan else FloatVal.posInf) ∧
    ((formatSummaryPercents (DiffSummaryProgress.mk 1 2 3 4 5 0) 7).cells =
      if (100 * 4) % U64 = 0 then FloatVal.nan else FloatVal.posInf)) :=
  ⟨rfl, formatSummary_zero_denominator (DiffSummaryProgress.mk 1 2 3 4 5 0) 7 rfl⟩

theorem diffSchemas_no_panic_of_not_add_drop (td : TableDelta) (dArgs : DiffArgs)
    (h : dArgs.diffOutput = DiffOutput.tabular) (had : (td.IsDrop || td.IsAdd) = false) :
    diffSchemas td dArgs ≠ SchemaDiffOutcome.panicked := by
  unfold diffSchemas
  by_cases he : SchemasAreEqual td.fromSch td.toSch = true
  · simp [he]
  · simp [he, h, had]

/-- C10: via diffRoots with tabular output the panic in diffSchemas is
unreachable: a table delta with an added or dropped side is skipped before
any diff part runs, and the schema diff invoked for the remaining deltas
never panics. -/
theorem diffRoots_tabular_no_panic (dArgs : DiffArgs) (td : TableDelta)
    (h : dArgs.diffOutput = DiffOutput.tabular) :
    ((td.IsAdd || td.IsDrop) = true →
      ∀ s o d, processTableDelta dArgs td ≠ DeltaStep.processed s o d) ∧
    (∀ s d, processTableDelta dArgs td ≠
      DeltaStep.processed s (some SchemaDiffOutcome.panicked) d) := by
  constructor
  · intro had s o d
    have hc3 : dArgs.diffOutput = DiffOutput.tabular ∧ (td.IsDrop || td.IsAdd) = true := by
      refine ⟨h, ?_⟩
      rw [Bool.or_comm] at had
      exact had
    unfold processTableDelta
    by_cases hc1 : (!(dArgs.tableSet.contains td.fromName
        || dArgs.tableSet.contains td.toName)) = true
    · rw [if_pos hc1]; simp
    · rw [if_neg hc1]
      by_cases hc2 : td.fromTablePresent = false ∧ td.toTablePresent = false
      · rw [if_pos hc2]; simp
      · rw [if_neg hc2, if_pos hc3]
        simp
  · intro s d
    unfold processTableDelta
    by_cases hc1 : (!(dArgs.tableSet.contains td.fromName
        || dArgs.tableSet.contains td.toName)) = true
    · rw [if_pos hc1]; simp
    · rw [if_neg hc1]
      by_cases hc2 : td.fromTablePresent = false ∧ td.toTablePresent = false
      · rw [if_pos hc2]; simp
      · rw [if_neg hc2]
        by_cases hc3 : dArgs.diffOutput = DiffOutput.tabular ∧ (td.IsDrop || td.IsAdd) = true
        · rw [if_pos hc3]; simp
        · rw [if_neg hc3]
          by_cases hc4 : td.toName = DocTableName
          · rw [if_pos hc4]; simp
          · rw [if_neg hc4]
            intro hc
            have had : (td.IsDrop || td.IsAdd) = false := by
              cases hb : (td.IsDrop || td.IsAdd)
              · rfl
              · exact absurd ⟨h, hb⟩ hc3
            have e2 : (if dArgs.diffParts.land SchemaOnlyDiff != 0
                then some (diffSchemas td dArgs) else none)
                = some SchemaDiffOutcome.panicked := by
              injection hc with i1 i2 i3
            by_cases hbit : (dArgs.diffParts.land SchemaOnlyDiff != 0) = true
            · rw [if_pos hbit] at e2
              exact diffSchemas_no_panic_of_not_add_drop td dArgs h had (Option.some.inj e2)
            · rw [if_neg hbit] at e2
              exact Option.noConfusion e2

/-- Witness for diffRoots_tabular_no_panic at a concrete tabular argument
set and a dropped-table delta. -/
theorem diffRoots_tabular_no_panic_witness :
    (DiffArgs.mk 1 DiffOutput.tabular ["t"] 0 "").diffOutput = DiffOutput.tabular ∧
    ((((TableDelta.mk "t" "t" true false [] []).IsAdd
        || (TableDelta.mk "t" "t" true false [] []).IsDrop) = true →
      ∀ s o d, processTableDelta (DiffArgs.mk 1 DiffOutput.tabular ["t"] 0 "")
          (TableDelta.mk "t" "t" true false [] []) ≠ DeltaStep.processed s o d) ∧
    (∀ s d, processTableDelta (DiffArgs.mk 1 DiffOutput.tabular ["t"] 0 "")
        (TableDelta.mk "t" "t" true false [] []) ≠
      DeltaStep.processed s (some SchemaDiffOutcome.panicked) d)) :=
  ⟨rfl, diffRoots_tabular_no_panic (DiffArgs.mk 1 DiffOutput.tabular ["t"] 0 "")
    (TableDelta.mk "t" "t" true false [] []) rfl⟩

end Dolt
